import Mathlib

/-!
Shallow embedding of the snake simulation and navigation engine
(src/LAB_3_4_5/snake_game.py) together with a verification of the frozen
specification claims.  Pure functions of the source become Lean functions;
the mutating methods of the Python classes become state-passing functions;
the rejection-sampling random generators take an explicit stream of sample
candidates and return an Option (none when the provided stream is exhausted,
where the original would keep looping); the unbounded BFS while-loop takes a
fuel argument that provably dominates its loop measure.
-/

/-- Cells of the grid: pairs of (unbounded) integers, as the Python tuples. -/
abbrev Cell : Type := Int × Int

/-- Number of cells in width and height (GRID_SIZE = 20 in the source). -/
def GRID_SIZE : Int := 20

/-- Python's modulo for a positive modulus: the representative in [0, n).
Python's % is floor-mod, which for n > 0 equals this expression over
Lean's T-division remainder. -/
def pymod (a n : Int) : Int := (a % n + n) % n

def UP : Cell := (0, -1)

def DOWN : Cell := (0, 1)

def LEFT : Cell := (-1, 0)

def RIGHT : Cell := (1, 0)

/-- The direction list [UP, DOWN, LEFT, RIGHT] in source iteration order. -/
def dirsL : List Cell := [UP, DOWN, LEFT, RIGHT]

/-- Wrap-around addition of a direction to a cell: componentwise Python
modulo GRID_SIZE, as in Snake.move and the safety heuristic. -/
def wrapAdd (c d : Cell) : Cell :=
  (pymod (c.1 + d.1) GRID_SIZE, pymod (c.2 + d.2) GRID_SIZE)

/-- State of the Snake class: length, positions (head first), direction,
score.  The colors are rendering-only and omitted. -/
structure Snake where
  length : Nat
  positions : List Cell
  direction : Cell
  score : Nat
deriving DecidableEq

/-- Snake.reset: single-cell body at grid center; the random initial
direction is passed explicitly. -/
def Snake.reset (d : Cell) : Snake :=
  { length := 1
    positions := [(GRID_SIZE / 2, GRID_SIZE / 2)]
    direction := d
    score := 0 }

/-- Snake.get_head_position: positions[0]. -/
def Snake.get_head_position (s : Snake) : Cell := s.positions.headD (0, 0)

/-- Snake.turn: changes the direction, except that when length > 1 and the
negation of the requested direction equals the current direction the call
does nothing (the 180-degree-turn guard). -/
def Snake.turn (s : Snake) (point : Cell) : Snake :=
  if s.length > 1 ∧ (point.1 * -1, point.2 * -1) = s.direction then s
  else { s with direction := point }

/-- Snake.move: computes the wrapped new head; if the body (when longer
than 2) contains the new head beyond index 1, reports a collision and
leaves the state unchanged; otherwise inserts the new head in front and
pops the last segment when the body exceeds the length. -/
def Snake.move (s : Snake) : Bool × Snake :=
  let cur := s.get_head_position
  let new_head : Cell :=
    (pymod (cur.1 + s.direction.1) GRID_SIZE, pymod (cur.2 + s.direction.2) GRID_SIZE)
  if s.positions.length > 2 ∧ new_head ∈ s.positions.drop 2 then (true, s)
  else
    let inserted := new_head :: s.positions
    (false,
      { s with positions := if inserted.length > s.length then inserted.dropLast else inserted })

/-- Snake.grow: length += 1 and score += 1. -/
def Snake.grow (s : Snake) : Snake :=
  { s with length := s.length + 1, score := s.score + 1 }

/-- get_random_position: rejection sampling until a candidate avoids the
snake body, the obstacles, and (when given) the current food position.  The
random stream is the explicit samples list; none models a stream that never
produces a valid cell (the original would loop forever). -/
def get_random_position (samples : List Cell) (snake_body obstacles : List Cell)
    (food_pos : Option Cell) : Option Cell :=
  samples.find? (fun pos =>
    decide (pos ∉ snake_body) && decide (pos ∉ obstacles) &&
      (match food_pos with
       | none => true
       | some f => decide (pos ≠ f)))

/-- Food.randomize_position: get_random_position excluding the current food
position; returns the new position. -/
def Food.randomize_position (samples : List Cell) (snake_body obstacles : List Cell)
    (position : Cell) : Option Cell :=
  get_random_position samples snake_body obstacles (some position)

/-- The radius-2 Chebyshev neighborhood of the spawn head that
Obstacles.generate_obstacles keeps free of obstacles. -/
def safe_spawn_area (head : Cell) : List Cell :=
  ([-2, -1, 0, 1, 2] : List Int).flatMap (fun dx =>
    ([-2, -1, 0, 1, 2] : List Int).map (fun dy => (head.1 + dx, head.2 + dy)))

/-- One obstacle per iteration, each drawn from its own sample stream,
avoiding the snake body, the safe spawn area, and the obstacles placed so
far. -/
def generate_obstacles_go (snake_and_safe : List Cell) :
    Nat → List (List Cell) → List Cell → Option (List Cell)
  | 0, _, acc => some acc
  | n + 1, sampless, acc =>
    match get_random_position (sampless.headD []) snake_and_safe acc none with
    | some pos => generate_obstacles_go snake_and_safe n sampless.tail (acc ++ [pos])
    | none => none

/-- Obstacles.generate_obstacles for a given obstacle count. -/
def generate_obstacles (num_obstacles : Nat) (sampless : List (List Cell))
    (snake_body : List Cell) : Option (List Cell) :=
  generate_obstacles_go (snake_body ++ safe_spawn_area (snake_body.headD (0, 0)))
    num_obstacles sampless []

/-- The boundary check of the BFS: 0 <= x < GRID_SIZE and 0 <= y < GRID_SIZE
(fixed extent, no wrap-around). -/
def InGrid (c : Cell) : Prop :=
  0 ≤ c.1 ∧ c.1 < GRID_SIZE ∧ 0 ≤ c.2 ∧ c.2 < GRID_SIZE

instance (c : Cell) : Decidable (InGrid c) := by
  unfold InGrid; infer_instance

/-- One neighbor-enqueue step of the BFS inner for-loop: if the neighbor in
direction d is inside the grid, unvisited, not an obstacle and not on the
snake body minus its tail, enqueue the extended path at the back and mark
it visited. -/
def bfsExpandStep (obstacles snake_body : List Cell) (path : List Cell)
    (current_head : Cell) (acc : List (List Cell) × Finset Cell) (d : Cell) :
    List (List Cell) × Finset Cell :=
  let next_pos : Cell := (current_head.1 + d.1, current_head.2 + d.2)
  if InGrid next_pos ∧ next_pos ∉ acc.2 ∧ next_pos ∉ obstacles ∧
      next_pos ∉ snake_body.dropLast then
    (acc.1 ++ [path ++ [next_pos]], insert next_pos acc.2)
  else acc

/-- The full inner for-loop of the BFS over [UP, DOWN, LEFT, RIGHT]. -/
def bfsExpand (obstacles snake_body : List Cell) (path : List Cell)
    (current_head : Cell) (queue : List (List Cell)) (visited : Finset Cell) :
    List (List Cell) × Finset Cell :=
  dirsL.foldl (bfsExpandStep obstacles snake_body path current_head) (queue, visited)

/-- The BFS while-loop: pop the front path; if its last cell is the target,
return the path without its first element; otherwise expand and continue.
The fuel argument dominates the loop measure (queue length plus unvisited
grid cells), so the zero-fuel branch is never the one that answers. -/
def bfsLoop (target_pos : Cell) (obstacles snake_body : List Cell) :
    Nat → List (List Cell) → Finset Cell → List Cell
  | 0, _, _ => []
  | _ + 1, [], _ => []
  | fuel + 1, path :: rest, visited =>
    let current_head := path.getLastD (0, 0)
    if current_head = target_pos then path.drop 1
    else
      let next := bfsExpand obstacles snake_body path current_head rest visited
      bfsLoop target_pos obstacles snake_body fuel next.1 next.2

/-- Fuel bound: strictly more than 1 + GRID_SIZE * GRID_SIZE, the largest
possible initial measure. -/
def bfsFuel : Nat := GRID_SIZE.toNat * GRID_SIZE.toNat + 2

/-- bfs_pathfinding: BFS from start_pos, initial queue [[start_pos]] and
visited {start_pos}, avoiding the obstacles and the snake body minus its
tail. -/
def bfs_pathfinding (start_pos target_pos : Cell) (snake_body obstacles : List Cell) :
    List Cell :=
  bfsLoop target_pos obstacles snake_body bfsFuel [[start_pos]] {start_pos}

/-- One iteration of the possible_moves collection loop of the safety
heuristic: append the direction when its wrapped neighbor avoids the body
and the obstacles, except that the exact reversal of the current direction
is skipped when more than one move has already been collected. -/
def pmStep (head direction : Cell) (length : Nat)
    (snake_positions obstacle_positions : List Cell) (acc : List Cell) (d : Cell) :
    List Cell :=
  let next_safe_pos := wrapAdd head d
  if next_safe_pos ∉ snake_positions ∧ next_safe_pos ∉ obstacle_positions then
    if length > 1 ∧ d = (direction.1 * -1, direction.2 * -1) ∧ acc.length > 1 then acc
    else acc ++ [d]
  else acc

/-- The possible_moves list of the safety heuristic of game_loop. -/
def possibleMoves (head direction : Cell) (length : Nat)
    (snake_positions obstacle_positions : List Cell) : List Cell :=
  dirsL.foldl (pmStep head direction length snake_positions obstacle_positions) []

/-- The direction the safety heuristic passes to snake.turn: the current
direction when it is itself a possible move, else a random possible move
(random.choice modeled by the index k), or none when no move is safe. -/
def safetyMove (k : Nat) (head direction : Cell) (length : Nat)
    (snake_positions obstacle_positions : List Cell) : Option Cell :=
  let pm := possibleMoves head direction length snake_positions obstacle_positions
  if pm = [] then none
  else if direction ∈ pm then some direction
  else some (pm.getD (k % pm.length) (0, 0))

/-- Keyboard events consumed by one tick (QUIT and ESCAPE terminate the
process and are outside the state transition). -/
inductive GEvent where
  | up
  | down
  | left
  | right
  | akey
  | rkey
deriving DecidableEq

/-- Randomness consumed by one tick: the reset direction, the obstacle
sample streams, the food sample stream and the random.choice index. -/
structure TickRand where
  resetDir : Cell
  obstSampless : List (List Cell)
  foodSamples : List Cell
  choiceIndex : Nat

/-- The mutable state of game_loop. -/
structure Game where
  snake : Snake
  obstaclePositions : List Cell
  foodPos : Cell
  game_over : Bool
  autopilot_on : Bool
  autopilot_path : List Cell
deriving DecidableEq

def num_initial_obstacles : Nat := 5

/-- reset_game_state: new snake at center, regenerated obstacles, food
relocated away from its previous position, game_over cleared, plan cleared,
autopilot flag kept. -/
def reset_game_state (rnd : TickRand) (g : Game) : Option Game :=
  let sn := Snake.reset rnd.resetDir
  match generate_obstacles num_initial_obstacles rnd.obstSampless sn.positions with
  | none => none
  | some obst =>
    match Food.randomize_position rnd.foodSamples sn.positions obst g.foodPos with
    | none => none
    | some f =>
      some { snake := sn, obstaclePositions := obst, foodPos := f, game_over := false,
             autopilot_on := g.autopilot_on, autopilot_path := [] }

/-- The KEYDOWN handling of one event: when game_over only R restarts; when
running, arrow keys turn the snake unless autopilot is on, and A toggles
autopilot clearing the plan. -/
def handleEvent (rnd : TickRand) (g : Game) (e : GEvent) : Option Game :=
  if g.game_over then
    if e = GEvent.rkey then reset_game_state rnd g else some g
  else
    match e with
    | GEvent.up => some (if ¬g.autopilot_on then { g with snake := g.snake.turn UP } else g)
    | GEvent.down => some (if ¬g.autopilot_on then { g with snake := g.snake.turn DOWN } else g)
    | GEvent.left => some (if ¬g.autopilot_on then { g with snake := g.snake.turn LEFT } else g)
    | GEvent.right => some (if ¬g.autopilot_on then { g with snake := g.snake.turn RIGHT } else g)
    | GEvent.akey => some { g with autopilot_on := ¬g.autopilot_on, autopilot_path := [] }
    | GEvent.rkey => some g

/-- The wrap normalization of the autopilot follow step: a delta of
magnitude above one is replaced by its wrapped unit equivalent. -/
def normalizeDelta (d : Int) : Int :=
  if d > 1 then -1 else if d < -1 then 1 else d

/-- The autopilot block of one tick: replan by BFS when the plan is empty,
fall back to the safety heuristic when no path exists, then follow the plan
by popping its first cell and turning toward it. -/
def autopilotStep (rnd : TickRand) (g : Game) : Game :=
  if g.autopilot_on then
    let g1 :=
      if g.autopilot_path = [] then
        let body_to_avoid :=
          if g.snake.length > 1 then g.snake.positions.dropLast else g.snake.positions
        let path_to_food :=
          bfs_pathfinding g.snake.get_head_position g.foodPos body_to_avoid g.obstaclePositions
        if path_to_food ≠ [] then { g with autopilot_path := path_to_food }
        else
          match safetyMove rnd.choiceIndex g.snake.get_head_position g.snake.direction
              g.snake.length g.snake.positions g.obstaclePositions with
          | some d => { g with snake := g.snake.turn d, autopilot_path := [] }
          | none => { g with autopilot_path := [] }
      else g
    if g1.autopilot_path ≠ [] then
      let next_move_pos := g1.autopilot_path.headD (0, 0)
      let head_pos := g1.snake.get_head_position
      let dx := normalizeDelta (next_move_pos.1 - head_pos.1)
      let dy := normalizeDelta (next_move_pos.2 - head_pos.2)
      { g1 with snake := g1.snake.turn (dx, dy), autopilot_path := g1.autopilot_path.tail }
    else g1
  else g

/-- The simulation part of one iteration of the game loop (after event
handling): skipped entirely when game_over; otherwise autopilot intent,
snake movement, obstacle and self collision, and food consumption. -/
def updateGame (rnd : TickRand) (g : Game) : Option Game :=
  if g.game_over then some g
  else
    let g1 := autopilotStep rnd g
    let mv := g1.snake.move
    let g2 := { g1 with snake := mv.2 }
    let g3 :=
      if g2.snake.get_head_position ∈ g2.obstaclePositions then { g2 with game_over := true }
      else g2
    let g4 := if mv.1 then { g3 with game_over := true } else g3
    if g4.snake.get_head_position = g4.foodPos then
      match Food.randomize_position rnd.foodSamples g4.snake.positions g4.obstaclePositions
          g4.foodPos with
      | some f => some { g4 with snake := g4.snake.grow, foodPos := f, autopilot_path := [] }
      | none => none
    else some g4

/-- One full iteration of the while-loop of game_loop: process the pending
events in order, then run the simulation step. -/
def tick (rnd : TickRand) (g : Game) (events : List GEvent) : Option Game :=
  match events.foldlM (handleEvent rnd) g with
  | none => none
  | some g1 => updateGame rnd g1

/-- A cell is open for the pathfinder when it is inside the fixed grid and
neither an obstacle nor on the snake body minus its tail. -/
def OpenC (obstacles snake_body : List Cell) (c : Cell) : Prop :=
  InGrid c ∧ c ∉ obstacles ∧ c ∉ snake_body.dropLast

/-- 4-adjacency without wrap-around, in the BFS sense. -/
def Adj (a b : Cell) : Prop :=
  ∃ d ∈ dirsL, b = (a.1 + d.1, a.2 + d.2)

/-- One legal search step: a 4-neighbor that is open. -/
def Step (obstacles snake_body : List Cell) (a b : Cell) : Prop :=
  Adj a b ∧ OpenC obstacles snake_body b

/-- The cell c can be reached from s in exactly n legal search steps. -/
def Reach (s : Cell) (obstacles snake_body : List Cell) (c : Cell) (n : Nat) : Prop :=
  ∃ q : List Cell,
    List.Chain (Step obstacles snake_body) s q ∧ q.length = n ∧ (s :: q).getLastD s = c

/-- The finite set of grid cells, used for the BFS loop measure. -/
def gridF : Finset Cell :=
  Finset.Icc (0 : Int) (GRID_SIZE - 1) ×ˢ Finset.Icc (0 : Int) (GRID_SIZE - 1)

/-- The BFS loop measure: queue length plus unvisited grid cells. -/
def bfsMeasure (Q : List (List Cell)) (V : Finset Cell) : Nat :=
  Q.length + (gridF \ V).card

/-- A direction is safe when its wrapped neighbor cell avoids the snake
body and the obstacles, as tested by the safety heuristic. -/
def SafeDir (head : Cell) (snake_positions obstacle_positions : List Cell) (d : Cell) : Prop :=
  wrapAdd head d ∉ snake_positions ∧ wrapAdd head d ∉ obstacle_positions

instance (head : Cell) (b o : List Cell) (d : Cell) : Decidable (SafeDir head b o d) := by
  unfold SafeDir; infer_instance

/-- Result specification of the pathfinder: open cells only, no repeats,
start excluded, a shortest legal path when nonempty, and emptiness only
when no legal path exists (or the start is the target). -/
def BfsRes (s t : Cell) (obst body : List Cell) (r : List Cell) : Prop :=
  (∀ c ∈ r, OpenC obst body c) ∧ r.Nodup ∧ s ∉ r ∧
  (r ≠ [] → List.Chain (Step obst body) s r ∧ r.getLastD s = t ∧
    ∀ n, Reach s obst body t n → r.length ≤ n) ∧
  (r = [] → s ≠ t → ∀ n, ¬Reach s obst body t n)

/-- The BFS loop invariant: queue paths are rooted simple paths over
visited cells, queue lengths are sorted and span at most two levels,
every queued path is a shortest path to its endpoint, every cell within
the head level is already visited, every visited cell that is no longer a
queue endpoint has been fully expanded, and the target can only be visited
while still on the queue. -/
structure BfsInv (s t : Cell) (obst body : List Cell)
    (Q : List (List Cell)) (V : Finset Cell) : Prop where
  rooted : ∀ p ∈ Q, ∃ q, p = s :: q ∧ List.Chain (Step obst body) s q
  inV : ∀ p ∈ Q, ∀ c ∈ p, c ∈ V
  nodup : ∀ p ∈ Q, p.Nodup
  sortedQ : List.Pairwise (fun a b => a ≤ b) (Q.map List.length)
  bounded : ∀ p ∈ Q, ∀ p0, Q.head? = some p0 → p.length ≤ p0.length + 1
  minimal : ∀ p ∈ Q, ∀ n, Reach s obst body (p.getLastD (0, 0)) n → p.length ≤ n + 1
  coverage : ∀ p0, Q.head? = some p0 → ∀ c n, Reach s obst body c n →
    n + 1 ≤ p0.length → c ∈ V
  expanded : ∀ c ∈ V, (∀ p ∈ Q, p.getLastD (0, 0) ≠ c) →
    ∀ e, Step obst body c e → e ∈ V
  targetV : t ∈ V → t = s ∨ ∃ p ∈ Q, p.getLastD (0, 0) = t
  startV : s ∈ V

/-- pymod of an in-range value is itself. -/
lemma pymod_eq_self {a : Int} (h0 : 0 ≤ a) (h1 : a < GRID_SIZE) : pymod a GRID_SIZE = a := by
  unfold pymod GRID_SIZE at *; omega

/-- Equation for Snake.move in the collision case. -/
lemma Snake.move_eq_collision (s : Snake)
    (hc : s.positions.length > 2 ∧
      (pymod (s.get_head_position.1 + s.direction.1) GRID_SIZE,
        pymod (s.get_head_position.2 + s.direction.2) GRID_SIZE) ∈ s.positions.drop 2) :
    s.move = (true, s) := by
  unfold Snake.move
  exact if_pos hc

/-- Equation for Snake.move in the collision-free case. -/
lemma Snake.move_eq_free (s : Snake)
    (hc : ¬(s.positions.length > 2 ∧
      (pymod (s.get_head_position.1 + s.direction.1) GRID_SIZE,
        pymod (s.get_head_position.2 + s.direction.2) GRID_SIZE) ∈ s.positions.drop 2)) :
    s.move = (false, { s with positions :=
      if ((pymod (s.get_head_position.1 + s.direction.1) GRID_SIZE,
            pymod (s.get_head_position.2 + s.direction.2) GRID_SIZE) :: s.positions).length >
          s.length then
        ((pymod (s.get_head_position.1 + s.direction.1) GRID_SIZE,
            pymod (s.get_head_position.2 + s.direction.2) GRID_SIZE) :: s.positions).dropLast
      else
        (pymod (s.get_head_position.1 + s.direction.1) GRID_SIZE,
          pymod (s.get_head_position.2 + s.direction.2) GRID_SIZE) :: s.positions }) := by
  unfold Snake.move
  exact if_neg hc

section SafetyLemmas

variable (head direction : Cell) (len : Nat) (body obst : List Cell)

lemma pmStep_eq_of_unsafe {d : Cell} (h : ¬SafeDir head body obst d) (acc : List Cell) :
    pmStep head direction len body obst acc d = acc := by
  unfold pmStep
  exact if_neg h

lemma pmStep_eq_of_skip {d : Cell} (h : SafeDir head body obst d) (acc : List Cell)
    (hskip : len > 1 ∧ d = (direction.1 * -1, direction.2 * -1) ∧ acc.length > 1) :
    pmStep head direction len body obst acc d = acc := by
  have h' : wrapAdd head d ∉ body ∧ wrapAdd head d ∉ obst := h
  show (if wrapAdd head d ∉ body ∧ wrapAdd head d ∉ obst then
      (if len > 1 ∧ d = (direction.1 * -1, direction.2 * -1) ∧ acc.length > 1 then acc
       else acc ++ [d])
    else acc) = acc
  rw [if_pos h', if_pos hskip]

lemma pmStep_eq_of_app {d : Cell} (h : SafeDir head body obst d) (acc : List Cell)
    (hskip : ¬(len > 1 ∧ d = (direction.1 * -1, direction.2 * -1) ∧ acc.length > 1)) :
    pmStep head direction len body obst acc d = acc ++ [d] := by
  have h' : wrapAdd head d ∉ body ∧ wrapAdd head d ∉ obst := h
  show (if wrapAdd head d ∉ body ∧ wrapAdd head d ∉ obst then
      (if len > 1 ∧ d = (direction.1 * -1, direction.2 * -1) ∧ acc.length > 1 then acc
       else acc ++ [d])
    else acc) = acc ++ [d]
  rw [if_pos h', if_neg hskip]

/-- Master fold invariant for the possible_moves collection loop. -/
lemma pmFold_spec (ds : List Cell) :
    ∀ acc : List Cell,
      ∃ extra : List Cell,
        ds.foldl (pmStep head direction len body obst) acc = acc ++ extra ∧
        (∀ d ∈ extra, d ∈ ds ∧ SafeDir head body obst d) ∧
        (∀ d ∈ ds, SafeDir head body obst d →
          d ≠ (direction.1 * -1, direction.2 * -1) → d ∈ extra) ∧
        (∀ d ∈ ds, SafeDir head body obst d → (acc ++ extra) ≠ []) := by
  induction ds with
  | nil => intro acc; exact ⟨[], by simp, by simp, by simp, by simp⟩
  | cons d0 ds ih =>
    intro acc
    by_cases hsafe : SafeDir head body obst d0
    · by_cases hskip : len > 1 ∧ d0 = (direction.1 * -1, direction.2 * -1) ∧ acc.length > 1
      · obtain ⟨extra, heq, he1, he2, he3⟩ := ih acc
        refine ⟨extra, ?_, ?_, ?_, ?_⟩
        · rw [List.foldl_cons, pmStep_eq_of_skip head direction len body obst hsafe acc hskip, heq]
        · exact fun d hd => ⟨List.mem_cons_of_mem _ (he1 d hd).1, (he1 d hd).2⟩
        · intro d hd hs hrev
          rcases List.mem_cons.mp hd with rfl | hd
          · exact absurd hskip.2.1 hrev
          · exact he2 d hd hs hrev
        · intro d hd hs hnil
          have h1 : acc.length > 1 := hskip.2.2
          have h2 := congrArg List.length hnil
          simp only [List.length_append, List.length_nil] at h2
          omega
      · obtain ⟨extra, heq, he1, he2, he3⟩ := ih (acc ++ [d0])
        refine ⟨d0 :: extra, ?_, ?_, ?_, ?_⟩
        · rw [List.foldl_cons, pmStep_eq_of_app head direction len body obst hsafe acc hskip, heq]
          simp
        · intro d hd
          rcases List.mem_cons.mp hd with rfl | hd
          · exact ⟨List.mem_cons_self _ _, hsafe⟩
          · exact ⟨List.mem_cons_of_mem _ (he1 d hd).1, (he1 d hd).2⟩
        · intro d hd hs hrev
          rcases List.mem_cons.mp hd with rfl | hd
          · exact List.mem_cons_self _ _
          · exact List.mem_cons_of_mem _ (he2 d hd hs hrev)
        · intro d hd hs
          simp
    · obtain ⟨extra, heq, he1, he2, he3⟩ := ih acc
      refine ⟨extra, ?_, ?_, ?_, ?_⟩
      · rw [List.foldl_cons, pmStep_eq_of_unsafe head direction len body obst hsafe acc, heq]
      · exact fun d hd => ⟨List.mem_cons_of_mem _ (he1 d hd).1, (he1 d hd).2⟩
      · intro d hd hs hrev
        rcases List.mem_cons.mp hd with rfl | hd
        · exact absurd hs hsafe
        · exact he2 d hd hs hrev
      · intro d hd hs
        rcases List.mem_cons.mp hd with rfl | hd
        · exact absurd hs hsafe
        · exact he3 d hd hs

/-- Every collected possible move is one of the four directions and safe. -/
lemma possibleMoves_mem :
    ∀ d ∈ possibleMoves head direction len body obst,
      d ∈ dirsL ∧ SafeDir head body obst d := by
  obtain ⟨extra, heq, he1, he2, he3⟩ := pmFold_spec head direction len body obst dirsL []
  unfold possibleMoves
  rw [heq]
  simpa using he1

/-- A safe non-reversal direction is always collected. -/
lemma possibleMoves_mem_of_safe (d : Cell) (hd : d ∈ dirsL)
    (hsafe : SafeDir head body obst d)
    (hrev : d ≠ (direction.1 * -1, direction.2 * -1)) :
    d ∈ possibleMoves head direction len body obst := by
  obtain ⟨extra, heq, he1, he2, he3⟩ := pmFold_spec head direction len body obst dirsL []
  unfold possibleMoves
  rw [heq]
  simpa using he2 d hd hsafe hrev

/-- When some direction is safe, the collected list is nonempty. -/
lemma possibleMoves_ne_nil (d : Cell) (hd : d ∈ dirsL)
    (hsafe : SafeDir head body obst d) :
    possibleMoves head direction len body obst ≠ [] := by
  obtain ⟨extra, heq, he1, he2, he3⟩ := pmFold_spec head direction len body obst dirsL []
  unfold possibleMoves
  rw [heq]
  simpa using he3 d hd hsafe

/-- When no direction is safe, the collected list is empty. -/
lemma possibleMoves_eq_nil (h : ∀ d ∈ dirsL, ¬SafeDir head body obst d) :
    possibleMoves head direction len body obst = [] := by
  obtain ⟨extra, heq, he1, he2, he3⟩ := pmFold_spec head direction len body obst dirsL []
  unfold possibleMoves
  rw [heq]
  cases extra with
  | nil => rfl
  | cons x xs => exact absurd (he1 x (List.mem_cons_self _ _)).2 (h x (he1 x (List.mem_cons_self _ _)).1)

end SafetyLemmas

/-- A direction is never its own exact reversal. -/
lemma dir_ne_own_reversal {d : Cell} (hd : d ∈ dirsL) :
    d ≠ (d.1 * -1, d.2 * -1) := by
  fin_cases hd <;> decide

/-- The element picked by random.choice is a member of the list. -/
lemma getD_choice_mem (l : List Cell) (h : l ≠ []) (k : Nat) :
    l.getD (k % l.length) (0, 0) ∈ l := by
  have hlt : k % l.length < l.length := Nat.mod_lt _ (List.length_pos.mpr h)
  rw [List.getD_eq_getElem l _ hlt]
  exact List.getElem_mem hlt

lemma getLastD_irrel {l : List Cell} (h : l ≠ []) (d1 d2 : Cell) :
    l.getLastD d1 = l.getLastD d2 := by
  cases l with
  | nil => exact absurd rfl h
  | cons a l => rfl

lemma chain_snoc {R : Cell → Cell → Prop} {a b : Cell} {l : List Cell}
    (h : List.Chain R a l) (hr : R ((a :: l).getLastD a) b) :
    List.Chain R a (l ++ [b]) := by
  induction l generalizing a with
  | nil =>
    simp only [List.nil_append]
    exact List.Chain.cons (by simpa using hr) List.Chain.nil
  | cons c l ih =>
    rw [List.chain_cons] at h
    rw [List.cons_append, List.chain_cons]
    refine ⟨h.1, ih h.2 ?_⟩
    simpa [List.getLastD_cons] using hr

lemma chain_unsnoc {R : Cell → Cell → Prop} {a b : Cell} {l : List Cell}
    (h : List.Chain R a (l ++ [b])) :
    List.Chain R a l ∧ R ((a :: l).getLastD a) b := by
  induction l generalizing a with
  | nil =>
    simp only [List.nil_append, List.chain_cons] at h
    exact ⟨List.Chain.nil, by simpa using h.1⟩
  | cons c l ih =>
    rw [List.cons_append, List.chain_cons] at h
    obtain ⟨h1, h2⟩ := h
    obtain ⟨h3, h4⟩ := ih h2
    exact ⟨List.chain_cons.mpr ⟨h1, h3⟩, by simpa [List.getLastD_cons] using h4⟩

lemma chain_open {obst body : List Cell} {s : Cell} {q : List Cell}
    (h : List.Chain (Step obst body) s q) : ∀ c ∈ q, OpenC obst body c := by
  induction q generalizing s with
  | nil => simp
  | cons a l ih =>
    rw [List.chain_cons] at h
    intro c hc
    rcases List.mem_cons.mp hc with rfl | hc
    · exact h.1.2
    · exact ih h.2 c hc

lemma chain_mem_closed {obst body : List Cell} {V : Finset Cell} {s : Cell}
    (hcl : ∀ c ∈ V, ∀ e, Step obst body c e → e ∈ V) (hs : s ∈ V) :
    ∀ {q : List Cell}, List.Chain (Step obst body) s q → ∀ c ∈ q, c ∈ V := by
  intro q
  induction q generalizing s with
  | nil => simp
  | cons a l ih =>
    intro h c hc
    rw [List.chain_cons] at h
    have ha : a ∈ V := hcl s hs a h.1
    rcases List.mem_cons.mp hc with rfl | hc
    · exact ha
    · exact ih ha h.2 c hc

lemma reach_zero {s : Cell} {obst body : List Cell} {c : Cell}
    (h : Reach s obst body c 0) : c = s := by
  obtain ⟨q, hq, hlen, hlast⟩ := h
  rw [List.length_eq_zero] at hlen
  subst hlen
  simpa using hlast.symm

lemma reach_self (s : Cell) (obst body : List Cell) : Reach s obst body s 0 :=
  ⟨[], List.Chain.nil, rfl, rfl⟩

lemma reach_succ {s : Cell} {obst body : List Cell} {c : Cell} {n : Nat}
    (h : Reach s obst body c (n + 1)) :
    ∃ c0, Reach s obst body c0 n ∧ Step obst body c0 c := by
  obtain ⟨q, hq, hlen, hlast⟩ := h
  have hne : q ≠ [] := by intro hq0; rw [hq0] at hlen; simp at hlen
  have hq2 : q.dropLast ++ [q.getLast hne] = q := List.dropLast_append_getLast hne
  rw [← hq2] at hq hlast
  obtain ⟨hchain, hstep⟩ := chain_unsnoc hq
  have hlastq : (s :: (q.dropLast ++ [q.getLast hne])).getLastD s = q.getLast hne := by
    rw [show s :: (q.dropLast ++ [q.getLast hne]) = (s :: q.dropLast) ++ [q.getLast hne] by simp,
      List.getLastD_concat]
  rw [hlastq] at hlast
  refine ⟨(s :: q.dropLast).getLastD s, ⟨q.dropLast, hchain, ?_, rfl⟩, ?_⟩
  · have := List.length_dropLast q
    omega
  · rw [← hlast]
    exact hstep

lemma mem_gridF {c : Cell} : c ∈ gridF ↔ InGrid c := by
  unfold gridF InGrid GRID_SIZE
  rw [Finset.mem_product]
  simp only [Finset.mem_Icc]
  omega

lemma gridF_card : gridF.card = 400 := by
  unfold gridF
  rw [Finset.card_product, Int.card_Icc]
  rfl

lemma card_sdiff_union_toFinset (ns : List Cell) :
    ∀ V : Finset Cell, ns.Nodup → (∀ n ∈ ns, InGrid n ∧ n ∉ V) →
      (gridF \ (V ∪ ns.toFinset)).card + ns.length = (gridF \ V).card := by
  induction ns with
  | nil => intro V _ _; simp
  | cons n ns ih =>
    intro V hnd hel
    have hnotmem : n ∉ ns := (List.nodup_cons.mp hnd).1
    have step1 : (gridF \ (insert n V ∪ ns.toFinset)).card + ns.length =
        (gridF \ insert n V).card := by
      refine ih (insert n V) (List.nodup_cons.mp hnd).2 ?_
      intro m hm
      refine ⟨(hel m (List.mem_cons_of_mem _ hm)).1, ?_⟩
      rw [Finset.mem_insert]
      push_neg
      exact ⟨fun hc => hnotmem (hc ▸ hm), (hel m (List.mem_cons_of_mem _ hm)).2⟩
    have hmem : n ∈ gridF \ V := by
      rw [Finset.mem_sdiff, mem_gridF]
      exact (hel n (List.mem_cons_self _ _))
    have step2 : ((gridF \ V).erase n).card + 1 = (gridF \ V).card :=
      Finset.card_erase_add_one hmem
    have heq : gridF \ (V ∪ (n :: ns).toFinset) = gridF \ (insert n V ∪ ns.toFinset) := by
      rw [List.toFinset_cons, Finset.union_insert, Finset.insert_union]
    have heq2 : gridF \ insert n V = (gridF \ V).erase n := by
      ext x
      simp only [Finset.mem_sdiff, Finset.mem_insert, Finset.mem_erase]
      tauto
    rw [heq, List.length_cons]
    rw [heq2] at step1
    omega

lemma bfsExpandStep_eq_add {obst body : List Cell} {p : List Cell} {cur d : Cell}
    {Q : List (List Cell)} {V : Finset Cell}
    (hc : InGrid (cur.1 + d.1, cur.2 + d.2) ∧ (cur.1 + d.1, cur.2 + d.2) ∉ V ∧
      (cur.1 + d.1, cur.2 + d.2) ∉ obst ∧ (cur.1 + d.1, cur.2 + d.2) ∉ body.dropLast) :
    bfsExpandStep obst body p cur (Q, V) d =
      (Q ++ [p ++ [(cur.1 + d.1, cur.2 + d.2)]], insert (cur.1 + d.1, cur.2 + d.2) V) := by
  unfold bfsExpandStep
  exact if_pos hc

lemma bfsExpandStep_eq_skip {obst body : List Cell} {p : List Cell} {cur d : Cell}
    {Q : List (List Cell)} {V : Finset Cell}
    (hc : ¬(InGrid (cur.1 + d.1, cur.2 + d.2) ∧ (cur.1 + d.1, cur.2 + d.2) ∉ V ∧
      (cur.1 + d.1, cur.2 + d.2) ∉ obst ∧ (cur.1 + d.1, cur.2 + d.2) ∉ body.dropLast)) :
    bfsExpandStep obst body p cur (Q, V) d = (Q, V) := by
  unfold bfsExpandStep
  exact if_neg hc

lemma bfsExpand_aux (obst body : List Cell) (p : List Cell) (cur : Cell) :
    ∀ (ds : List Cell) (Q : List (List Cell)) (V : Finset Cell),
      ∃ ns : List Cell,
        ds.foldl (bfsExpandStep obst body p cur) (Q, V) =
          (Q ++ ns.map (fun n => p ++ [n]), V ∪ ns.toFinset) ∧
        ns.Nodup ∧
        (∀ n ∈ ns, (∃ d ∈ ds, n = (cur.1 + d.1, cur.2 + d.2)) ∧ OpenC obst body n ∧ n ∉ V) ∧
        (∀ d ∈ ds, OpenC obst body (cur.1 + d.1, cur.2 + d.2) →
          (cur.1 + d.1, cur.2 + d.2) ∈ V ∨ (cur.1 + d.1, cur.2 + d.2) ∈ ns) := by
  intro ds
  induction ds with
  | nil => intro Q V; exact ⟨[], by simp, by simp, by simp, by simp⟩
  | cons d ds ih =>
    intro Q V
    by_cases hcond : InGrid (cur.1 + d.1, cur.2 + d.2) ∧ (cur.1 + d.1, cur.2 + d.2) ∉ V ∧
        (cur.1 + d.1, cur.2 + d.2) ∉ obst ∧ (cur.1 + d.1, cur.2 + d.2) ∉ body.dropLast
    · obtain ⟨ns, heq, hnd, hel, hcov⟩ :=
        ih (Q ++ [p ++ [(cur.1 + d.1, cur.2 + d.2)]]) (insert (cur.1 + d.1, cur.2 + d.2) V)
      refine ⟨(cur.1 + d.1, cur.2 + d.2) :: ns, ?_, ?_, ?_, ?_⟩
      · rw [List.foldl_cons, bfsExpandStep_eq_add hcond, heq]
        rw [List.map_cons, List.toFinset_cons, Finset.union_insert, Finset.insert_union]
        simp
      · refine List.nodup_cons.mpr ⟨?_, hnd⟩
        intro hmem
        exact (hel _ hmem).2.2 (Finset.mem_insert_self _ _)
      · intro n hn
        rcases List.mem_cons.mp hn with rfl | hn
        · exact ⟨⟨d, List.mem_cons_self _ _, rfl⟩, ⟨hcond.1, hcond.2.2.1, hcond.2.2.2⟩,
            hcond.2.1⟩
        · obtain ⟨⟨d2, hd2, hnd2⟩, hopen, hnv⟩ := hel n hn
          refine ⟨⟨d2, List.mem_cons_of_mem _ hd2, hnd2⟩, hopen, ?_⟩
          intro hv
          exact hnv (Finset.mem_insert_of_mem hv)
      · intro d2 hd2 hopen
        rcases List.mem_cons.mp hd2 with rfl | hd2
        · exact Or.inr (List.mem_cons_self _ _)
        · rcases hcov d2 hd2 hopen with hv | hns
          · rcases Finset.mem_insert.mp hv with heq2 | hv
            · exact Or.inr (by rw [heq2]; exact List.mem_cons_self _ _)
            · exact Or.inl hv
          · exact Or.inr (List.mem_cons_of_mem _ hns)
    · obtain ⟨ns, heq, hnd, hel, hcov⟩ := ih Q V
      refine ⟨ns, ?_, hnd, ?_, ?_⟩
      · rw [List.foldl_cons, bfsExpandStep_eq_skip hcond, heq]
      · intro n hn
        obtain ⟨⟨d2, hd2, hnd2⟩, hopen, hnv⟩ := hel n hn
        exact ⟨⟨d2, List.mem_cons_of_mem _ hd2, hnd2⟩, hopen, hnv⟩
      · intro d2 hd2 hopen
        rcases List.mem_cons.mp hd2 with rfl | hd2
        · left
          by_contra hnv
          exact hcond ⟨hopen.1, hnv, hopen.2.1, hopen.2.2⟩
        · exact hcov d2 hd2 hopen

lemma bfsExpand_spec (obst body : List Cell) (p : List Cell) (cur : Cell)
    (Q : List (List Cell)) (V : Finset Cell) :
    ∃ ns : List Cell,
      bfsExpand obst body p cur Q V = (Q ++ ns.map (fun n => p ++ [n]), V ∪ ns.toFinset) ∧
      ns.Nodup ∧
      (∀ n ∈ ns, Step obst body cur n ∧ n ∉ V) ∧
      (∀ e, Step obst body cur e → e ∈ V ∨ e ∈ ns) := by
  obtain ⟨ns, heq, hnd, hel, hcov⟩ := bfsExpand_aux obst body p cur dirsL Q V
  refine ⟨ns, heq, hnd, ?_, ?_⟩
  · intro n hn
    obtain ⟨hadj, hopen, hnv⟩ := hel n hn
    exact ⟨⟨hadj, hopen⟩, hnv⟩
  · intro e hstep
    obtain ⟨⟨d, hd, rfl⟩, hopen⟩ := hstep
    exact hcov d hd hopen

lemma pairwise_of_total {α : Type} {R : α → α → Prop} (h : ∀ a b, R a b) :
    ∀ l : List α, l.Pairwise R := by
  intro l
  induction l with
  | nil => exact List.Pairwise.nil
  | cons a l ih => exact List.Pairwise.cons (fun b _ => h a b) ih

lemma head_le_of_sorted {Q : List (List Cell)}
    (hs : List.Pairwise (fun a b => a ≤ b) (Q.map List.length))
    {p0 : List Cell} (h0 : Q.head? = some p0) : ∀ x ∈ Q, p0.length ≤ x.length := by
  cases Q with
  | nil => simp at h0
  | cons a l =>
    have ha : a = p0 := by simpa using h0
    subst ha
    rw [List.map_cons, List.pairwise_cons] at hs
    intro x hx
    rcases List.mem_cons.mp hx with rfl | hx
    · exact le_refl _
    · exact hs.1 x.length (List.mem_map_of_mem _ hx)

lemma mem_of_head? {Q : List (List Cell)} {p0 : List Cell} (h0 : Q.head? = some p0) :
    p0 ∈ Q := by
  cases Q with
  | nil => simp at h0
  | cons a l => have : a = p0 := by simpa using h0
                rw [← this]; exact List.mem_cons_self _ _

lemma bfs_preserve (s t : Cell) (obst body : List Cell) (p : List Cell)
    (rest : List (List Cell)) (V : Finset Cell)
    (hInv : BfsInv s t obst body (p :: rest) V)
    (hcur : p.getLastD (0, 0) ≠ t) :
    BfsInv s t obst body (bfsExpand obst body p (p.getLastD (0, 0)) rest V).1
        (bfsExpand obst body p (p.getLastD (0, 0)) rest V).2 ∧
    bfsMeasure (bfsExpand obst body p (p.getLastD (0, 0)) rest V).1
        (bfsExpand obst body p (p.getLastD (0, 0)) rest V).2 + 1 =
      bfsMeasure (p :: rest) V := by
  obtain ⟨q0, hp, hchain⟩ := hInv.rooted p (List.mem_cons_self _ _)
  obtain ⟨ns, heq, hnodup, hel, hcov⟩ :=
    bfsExpand_spec obst body p (p.getLastD (0, 0)) rest V
  set cur := p.getLastD (0, 0) with hcurdef
  set newPaths := ns.map (fun n => p ++ [n]) with hnew
  set Q' := rest ++ newPaths with hQpdef
  set V' := V ∪ ns.toFinset with hVpdef
  have hQ1 : (bfsExpand obst body p cur rest V).1 = Q' := by rw [heq]
  have hQ2 : (bfsExpand obst body p cur rest V).2 = V' := by rw [heq]
  rw [hQ1, hQ2]
  -- basic facts
  have hpne : p ≠ [] := by rw [hp]; simp
  have hplen : p.length = q0.length + 1 := by rw [hp]; rfl
  have hcur_eq : (s :: q0).getLastD s = cur := by
    rw [hcurdef, hp]
    exact getLastD_irrel (by simp) s (0, 0)
  have hmemQ' : ∀ x ∈ Q', x ∈ rest ∨ ∃ n ∈ ns, x = p ++ [n] := by
    intro x hx
    rcases List.mem_append.mp hx with hx | hx
    · exact Or.inl hx
    · right
      obtain ⟨n, hn, rfl⟩ := List.mem_map.mp hx
      exact ⟨n, hn, rfl⟩
  have hmemQ'2 : ∀ x, x ∈ rest → x ∈ Q' := fun x hx => List.mem_append.mpr (Or.inl hx)
  have hmemQ'3 : ∀ n ∈ ns, p ++ [n] ∈ Q' := by
    intro n hn
    exact List.mem_append.mpr (Or.inr (List.mem_map_of_mem _ hn))
  have hmemV' : ∀ c : Cell, c ∈ V' ↔ c ∈ V ∨ c ∈ ns := by
    intro c
    rw [hVpdef, Finset.mem_union, List.mem_toFinset]
  have hlast_concat : ∀ n : Cell, (p ++ [n]).getLastD (0, 0) = n := by
    intro n
    exact List.getLastD_concat _ _ _
  have hnewlen : ∀ x ∈ newPaths, x.length = p.length + 1 := by
    intro x hx
    obtain ⟨n, hn, rfl⟩ := List.mem_map.mp hx
    simp
  have hsort_pair := hInv.sortedQ
  rw [List.map_cons, List.pairwise_cons] at hsort_pair
  have hsort_head : ∀ x ∈ rest, p.length ≤ x.length := by
    intro x hx
    exact hsort_pair.1 x.length (List.mem_map_of_mem _ hx)
  have hsort_tail : List.Pairwise (fun a b => a ≤ b) (rest.map List.length) := hsort_pair.2
  have hbnd : ∀ x ∈ rest, x.length ≤ p.length + 1 := by
    intro x hx
    exact hInv.bounded x (List.mem_cons_of_mem _ hx) p rfl
  -- rooted
  have rooted' : ∀ x ∈ Q', ∃ q, x = s :: q ∧ List.Chain (Step obst body) s q := by
    intro x hx
    rcases hmemQ' x hx with hx | ⟨n, hn, rfl⟩
    · exact hInv.rooted x (List.mem_cons_of_mem _ hx)
    · refine ⟨q0 ++ [n], by rw [hp]; rfl, ?_⟩
      refine chain_snoc hchain ?_
      rw [hcur_eq]
      exact (hel n hn).1
  -- inV
  have inV' : ∀ x ∈ Q', ∀ c ∈ x, c ∈ V' := by
    intro x hx c hc
    rcases hmemQ' x hx with hx | ⟨n, hn, rfl⟩
    · exact (hmemV' c).mpr (Or.inl (hInv.inV x (List.mem_cons_of_mem _ hx) c hc))
    · rcases List.mem_append.mp hc with hc | hc
      · exact (hmemV' c).mpr (Or.inl (hInv.inV p (List.mem_cons_self _ _) c hc))
      · have : c = n := by simpa using hc
        exact (hmemV' c).mpr (Or.inr (this ▸ hn))
  -- nodup
  have nodup' : ∀ x ∈ Q', x.Nodup := by
    intro x hx
    rcases hmemQ' x hx with hx | ⟨n, hn, rfl⟩
    · exact hInv.nodup x (List.mem_cons_of_mem _ hx)
    · rw [List.nodup_append]
      refine ⟨hInv.nodup p (List.mem_cons_self _ _), List.nodup_singleton _, ?_⟩
      intro a ha hamem
      have han : a = n := by simpa using hamem
      have haV : a ∈ V := hInv.inV p (List.mem_cons_self _ _) a ha
      exact (hel n hn).2 (han ▸ haV)
  -- sorted
  have sorted' : List.Pairwise (fun a b => a ≤ b) (Q'.map List.length) := by
    rw [hQpdef, List.map_append, List.pairwise_append]
    refine ⟨hsort_tail, ?_, ?_⟩
    · rw [hnew, List.map_map, List.pairwise_map]
      exact pairwise_of_total (fun a b => by simp) ns
    · intro a ha b hb
      obtain ⟨x, hx, rfl⟩ := List.mem_map.mp ha
      obtain ⟨y, hy, rfl⟩ := List.mem_map.mp hb
      have := hbnd x hx
      have := hnewlen y hy
      omega
  -- bounded
  have bounded' : ∀ x ∈ Q', ∀ p0, Q'.head? = some p0 → x.length ≤ p0.length + 1 := by
    intro x hx p0 hp0
    have hp0mem : p0 ∈ Q' := mem_of_head? hp0
    have hp0len : p.length ≤ p0.length := by
      rcases hmemQ' p0 hp0mem with h | ⟨n, hn, rfl⟩
      · exact hsort_head p0 h
      · simp
    have hxlen : x.length ≤ p.length + 1 := by
      rcases hmemQ' x hx with h | ⟨n, hn, rfl⟩
      · exact hbnd x h
      · simp
    omega
  -- minimal
  have minimal' : ∀ x ∈ Q', ∀ n, Reach s obst body (x.getLastD (0, 0)) n →
      x.length ≤ n + 1 := by
    intro x hx n hr
    rcases hmemQ' x hx with h | ⟨m, hm, rfl⟩
    · exact hInv.minimal x (List.mem_cons_of_mem _ h) n hr
    · rw [hlast_concat m] at hr
      by_contra hlt
      push_neg at hlt
      have hmem : m ∈ V := by
        refine hInv.coverage p rfl m n hr ?_
        have : (p ++ [m]).length = p.length + 1 := by simp
        omega
      exact (hel m hm).2 hmem
  -- expanded
  have expanded' : ∀ c ∈ V', (∀ x ∈ Q', x.getLastD (0, 0) ≠ c) →
      ∀ e, Step obst body c e → e ∈ V' := by
    intro c hc hnoend e hstep
    rcases (hmemV' c).mp hc with hcV | hcns
    · by_cases hccur : c = cur
      · subst hccur
        rcases hcov e hstep with h | h
        · exact (hmemV' e).mpr (Or.inl h)
        · exact (hmemV' e).mpr (Or.inr h)
      · have : e ∈ V := by
          refine hInv.expanded c hcV ?_ e hstep
          intro x hx
          rcases List.mem_cons.mp hx with rfl | hx
          · exact fun hlast => hccur hlast.symm
          · exact hnoend x (hmemQ'2 x hx)
        exact (hmemV' e).mpr (Or.inl this)
    · exact absurd (hlast_concat c) (hnoend (p ++ [c]) (hmemQ'3 c hcns))
  -- target
  have target' : t ∈ V' → t = s ∨ ∃ x ∈ Q', x.getLastD (0, 0) = t := by
    intro ht
    rcases (hmemV' t).mp ht with htV | htns
    · rcases hInv.targetV htV with h | ⟨x, hx, hlast⟩
      · exact Or.inl h
      · rcases List.mem_cons.mp hx with rfl | hx
        · exact absurd hlast hcur
        · exact Or.inr ⟨x, hmemQ'2 x hx, hlast⟩
    · exact Or.inr ⟨p ++ [t], hmemQ'3 t htns, hlast_concat t⟩
  -- coverage
  have coverage' : ∀ p0, Q'.head? = some p0 → ∀ c n, Reach s obst body c n →
      n + 1 ≤ p0.length → c ∈ V' := by
    intro p0 hp0 c n hr hle
    by_cases hcase : n + 1 ≤ p.length
    · exact (hmemV' c).mpr (Or.inl (hInv.coverage p rfl c n hr hcase))
    · push_neg at hcase
      have hp0mem : p0 ∈ Q' := mem_of_head? hp0
      have hp0len : p0.length ≤ p.length + 1 := by
        rcases hmemQ' p0 hp0mem with h | ⟨m, hm, rfl⟩
        · exact hbnd p0 h
        · simp
      have hn : n = p.length := by omega
      have hallQ' : ∀ x ∈ Q', p.length + 1 ≤ x.length := by
        intro x hx
        have h1 := head_le_of_sorted sorted' hp0 x hx
        omega
      have hnpos : n = q0.length + 1 := by omega
      rw [hnpos] at hr
      obtain ⟨c0, hr0, hstep0⟩ := reach_succ hr
      have hc0V : c0 ∈ V := by
        refine hInv.coverage p rfl c0 q0.length hr0 ?_
        omega
      have hc0noend : ∀ x ∈ Q', x.getLastD (0, 0) ≠ c0 := by
        intro x hx hlast
        have := minimal' x hx q0.length (hlast ▸ hr0)
        have := hallQ' x hx
        omega
      exact expanded' c0 ((hmemV' c0).mpr (Or.inl hc0V)) hc0noend c hstep0
  refine ⟨⟨rooted', inV', nodup', sorted', bounded', minimal', coverage', expanded',
    target', (hmemV' s).mpr (Or.inl hInv.startV)⟩, ?_⟩
  -- measure
  have hcard : (gridF \ V').card + ns.length = (gridF \ V).card := by
    refine card_sdiff_union_toFinset ns V hnodup ?_
    intro n hn
    exact ⟨((hel n hn).1).2.1, (hel n hn).2⟩
  have hQlen : Q'.length = rest.length + ns.length := by
    rw [hQpdef, List.length_append, hnew, List.length_map]
  unfold bfsMeasure
  rw [hQlen]
  simp only [List.length_cons]
  omega

lemma getLastD_mem (l : List Cell) (h : l ≠ []) (d : Cell) : l.getLastD d ∈ l := by
  induction l generalizing d with
  | nil => exact absurd rfl h
  | cons a l ih =>
    cases l with
    | nil => simp [List.getLastD]
    | cons b m =>
      have : (a :: b :: m).getLastD d = (b :: m).getLastD a := rfl
      rw [this]
      exact List.mem_cons_of_mem _ (ih (by simp) a)

lemma getLastD_cons_eq (a d : Cell) (l : List Cell) : (a :: l).getLastD d = l.getLastD a := by
  cases l with
  | nil => rfl
  | cons b m => rfl

lemma bfsRes_of_empty (s t : Cell) (obst body : List Cell) (V : Finset Cell)
    (hInv : BfsInv s t obst body [] V) : BfsRes s t obst body [] := by
  refine ⟨by simp, by simp, by simp, by simp, ?_⟩
  intro _ hst n hr
  have htV : t ∉ V := by
    intro ht
    rcases hInv.targetV ht with h | ⟨x, hx, _⟩
    · exact hst h.symm
    · simp at hx
  have hcl : ∀ c ∈ V, ∀ e, Step obst body c e → e ∈ V := by
    intro c hc e hstep
    exact hInv.expanded c hc (by simp) e hstep
  obtain ⟨q, hq, hlen, hlast⟩ := hr
  cases q with
  | nil => exact hst (by simpa using hlast)
  | cons a l =>
    have hmem : t ∈ a :: l := by
      have h1 : (s :: a :: l).getLastD s = (a :: l).getLastD a := rfl
      rw [h1] at hlast
      rw [← hlast]
      exact getLastD_mem _ (by simp) a
    exact htV (chain_mem_closed hcl hInv.startV hq t hmem)

lemma bfsRes_of_found (s t : Cell) (obst body : List Cell) (p : List Cell)
    (rest : List (List Cell)) (V : Finset Cell)
    (hInv : BfsInv s t obst body (p :: rest) V)
    (hfound : p.getLastD (0, 0) = t) : BfsRes s t obst body (p.drop 1) := by
  obtain ⟨q0, hp, hchain⟩ := hInv.rooted p (List.mem_cons_self _ _)
  have hdrop : p.drop 1 = q0 := by rw [hp]; rfl
  have hnodup : (s :: q0).Nodup := by
    have := hInv.nodup p (List.mem_cons_self _ _)
    rwa [hp] at this
  have hlastq : q0.getLastD s = t := by
    have h1 : p.getLastD (0, 0) = q0.getLastD s := by rw [hp, getLastD_cons_eq]
    rw [← h1]
    exact hfound
  rw [hdrop]
  refine ⟨chain_open hchain, (List.nodup_cons.mp hnodup).2, (List.nodup_cons.mp hnodup).1,
    ?_, ?_⟩
  · intro _
    refine ⟨hchain, hlastq, ?_⟩
    intro n hr
    have hmin := hInv.minimal p (List.mem_cons_self _ _) n (by rw [hfound]; exact hr)
    have hplen : p.length = q0.length + 1 := by rw [hp]; rfl
    omega
  · intro hq0 hst
    rw [hq0] at hlastq
    exact absurd hlastq hst

lemma bfsLoop_spec (s t : Cell) (obst body : List Cell) :
    ∀ (fuel : Nat) (Q : List (List Cell)) (V : Finset Cell),
      BfsInv s t obst body Q V → bfsMeasure Q V ≤ fuel →
      BfsRes s t obst body (bfsLoop t obst body fuel Q V) := by
  intro fuel
  induction fuel with
  | zero =>
    intro Q V hInv hm
    have hQ : Q = [] := by
      unfold bfsMeasure at hm
      cases Q with
      | nil => rfl
      | cons p rest => simp at hm
    subst hQ
    exact bfsRes_of_empty s t obst body V hInv
  | succ fuel ih =>
    intro Q V hInv hm
    cases Q with
    | nil => exact bfsRes_of_empty s t obst body V hInv
    | cons p rest =>
      by_cases hfound : p.getLastD (0, 0) = t
      · have heq : bfsLoop t obst body (fuel + 1) (p :: rest) V = p.drop 1 := by
          show (if p.getLastD (0, 0) = t then p.drop 1
            else bfsLoop t obst body fuel
              (bfsExpand obst body p (p.getLastD (0, 0)) rest V).1
              (bfsExpand obst body p (p.getLastD (0, 0)) rest V).2) = p.drop 1
          exact if_pos hfound
        rw [heq]
        exact bfsRes_of_found s t obst body p rest V hInv hfound
      · have heq : bfsLoop t obst body (fuel + 1) (p :: rest) V =
            bfsLoop t obst body fuel
              (bfsExpand obst body p (p.getLastD (0, 0)) rest V).1
              (bfsExpand obst body p (p.getLastD (0, 0)) rest V).2 := by
          show (if p.getLastD (0, 0) = t then p.drop 1
            else bfsLoop t obst body fuel
              (bfsExpand obst body p (p.getLastD (0, 0)) rest V).1
              (bfsExpand obst body p (p.getLastD (0, 0)) rest V).2) = _
          exact if_neg hfound
        rw [heq]
        obtain ⟨hInv', hmeas⟩ := bfs_preserve s t obst body p rest V hInv hfound
        refine ih _ _ hInv' ?_
        unfold bfsMeasure at hm hmeas ⊢
        simp only [List.length_cons] at hm hmeas
        omega

/-- C1 -/
theorem claim_C1_move_spec (s : Snake) (hlen : s.positions.length ≤ s.length) :
    (s.length > 2 ∧
        (pymod (s.get_head_position.1 + s.direction.1) GRID_SIZE,
          pymod (s.get_head_position.2 + s.direction.2) GRID_SIZE) ∈ s.positions.drop 2 →
      s.move = (true, s)) ∧
    (¬(s.length > 2 ∧
        (pymod (s.get_head_position.1 + s.direction.1) GRID_SIZE,
          pymod (s.get_head_position.2 + s.direction.2) GRID_SIZE) ∈ s.positions.drop 2) →
      s.move = (false, { s with positions :=
        if s.positions.length + 1 > s.length then
          ((pymod (s.get_head_position.1 + s.direction.1) GRID_SIZE,
            pymod (s.get_head_position.2 + s.direction.2) GRID_SIZE) :: s.positions).dropLast
        else
          (pymod (s.get_head_position.1 + s.direction.1) GRID_SIZE,
            pymod (s.get_head_position.2 + s.direction.2) GRID_SIZE) :: s.positions })) := by
  set nh : Cell := (pymod (s.get_head_position.1 + s.direction.1) GRID_SIZE,
      pymod (s.get_head_position.2 + s.direction.2) GRID_SIZE) with hnh
  have key : (s.positions.length > 2 ∧ nh ∈ s.positions.drop 2) ↔
      (s.length > 2 ∧ nh ∈ s.positions.drop 2) := by
    constructor
    · rintro ⟨h1, h2⟩; exact ⟨lt_of_lt_of_le h1 hlen, h2⟩
    · rintro ⟨h1, h2⟩
      refine ⟨?_, h2⟩
      by_contra hno
      push_neg at hno
      have hdrop : s.positions.drop 2 = [] := List.drop_eq_nil_of_le (by omega)
      simp [hdrop] at h2
  constructor
  · intro h
    unfold Snake.move
    simp only [← hnh]
    rw [if_pos (key.mpr h)]
  · intro h
    unfold Snake.move
    simp only [← hnh]
    rw [if_neg (fun hc => h (key.mp hc))]
    simp

/-- C1 witness -/
theorem claim_C1_move_spec_w :
    Snake.move { length := 1, positions := [((10 : Int), (10 : Int))], direction := (1, 0), score := 0 } =
      (false, { length := 1, positions := [((11 : Int), (10 : Int))], direction := (1, 0), score := 0 }) := by
  have h := (claim_C1_move_spec
    { length := 1, positions := [((10 : Int), (10 : Int))], direction := (1, 0), score := 0 }
    (by decide)).2 (by decide)
  simpa using h

/-- C2 -/
theorem claim_C2_pathfinder_correct (start_pos target_pos : Cell)
    (snake_body obstacles : List Cell) :
    BfsRes start_pos target_pos obstacles snake_body
      (bfs_pathfinding start_pos target_pos snake_body obstacles) := by
  unfold bfs_pathfinding
  refine bfsLoop_spec start_pos target_pos obstacles snake_body bfsFuel
    [[start_pos]] {start_pos} ?_ ?_
  · refine ⟨?_, ?_, ?_, ?_, ?_, ?_, ?_, ?_, ?_, ?_⟩
    · intro p hp
      have : p = [start_pos] := by simpa using hp
      exact ⟨[], this, List.Chain.nil⟩
    · intro p hp c hc
      have hp' : p = [start_pos] := by simpa using hp
      rw [hp'] at hc
      simpa using hc
    · intro p hp
      have : p = [start_pos] := by simpa using hp
      rw [this]
      exact List.nodup_singleton _
    · simp
    · intro p hp p0 hp0
      have h1 : p = [start_pos] := by simpa using hp
      have h2 : p0 = [start_pos] := by symm; simpa using hp0
      rw [h1, h2]
      simp
    · intro p hp n hr
      have h1 : p = [start_pos] := by simpa using hp
      rw [h1]
      simp
    · intro p0 hp0 c n hr hle
      have h2 : p0 = [start_pos] := by symm; simpa using hp0
      rw [h2] at hle
      simp at hle
      have : n = 0 := by omega
      rw [this] at hr
      have := reach_zero hr
      simp [this]
    · intro c hc hnoend e hstep
      exfalso
      have hc' : c = start_pos := by simpa using hc
      refine hnoend [start_pos] (by simp) ?_
      rw [hc']
      rfl
    · intro ht
      left
      simpa using ht
    · simp
  · unfold bfsMeasure
    have h1 : (gridF \ {start_pos}).card ≤ gridF.card :=
      Finset.card_le_card (Finset.sdiff_subset)
    have h2 : gridF.card = 400 := gridF_card
    have h3 : bfsFuel = 402 := rfl
    simp only [List.length_cons, List.length_nil]
    omega

/-- C2 witness -/
theorem claim_C2_pathfinder_correct_w :
    List.Chain (Step [] []) (0, 0) (bfs_pathfinding (0, 0) (0, 1) [] []) ∧
      (bfs_pathfinding (0, 0) (0, 1) [] []).getLastD (0, 0) = (0, 1) := by
  have h := (claim_C2_pathfinder_correct (0, 0) (0, 1) [] []).2.2.2.1 (by decide)
  exact ⟨h.1, h.2.1⟩

/-- C3 -/
theorem claim_C3_turn_frame (s : Snake) (d : Cell) :
    (s.turn d).positions = s.positions ∧ (s.turn d).length = s.length ∧
    (s.turn d).score = s.score ∧
    (s.turn d).direction =
      (if s.length > 1 ∧ (d.1 * -1, d.2 * -1) = s.direction then s.direction else d) := by
  unfold Snake.turn
  split <;> simp_all

/-- C4 -/
theorem claim_C4_duplicate_body_bug :
    (Snake.move ((((Snake.move ((Snake.move ((Snake.reset (1, 0)).grow)).2.grow)).2.turn (0, -1)).turn (-1, 0)))).1 = false ∧
    (Snake.move ((((Snake.move ((Snake.move ((Snake.reset (1, 0)).grow)).2.grow)).2.turn (0, -1)).turn (-1, 0)))).2.positions
      = [(11, 10), (12, 10), (11, 10)] ∧
    ¬ (Snake.move ((((Snake.move ((Snake.move ((Snake.reset (1, 0)).grow)).2.grow)).2.turn (0, -1)).turn (-1, 0)))).2.positions.Nodup := by
  refine ⟨by decide, by decide, by decide⟩

/-- C5 -/
theorem claim_C5_safety_heuristic (k : Nat) (head direction : Cell) (len : Nat)
    (body obst : List Cell) (hdir : direction ∈ dirsL) :
    (∀ d : Cell, safetyMove k head direction len body obst = some d →
      d ∈ dirsL ∧ SafeDir head body obst d) ∧
    (SafeDir head body obst direction →
      safetyMove k head direction len body obst = some direction) ∧
    ((∀ d ∈ dirsL, ¬SafeDir head body obst d) →
      safetyMove k head direction len body obst = none) ∧
    (∀ d0 ∈ dirsL, SafeDir head body obst d0 →
      (∀ d ∈ dirsL, SafeDir head body obst d → d = d0) →
      safetyMove k head direction len body obst = some d0) ∧
    (∀ d0 ∈ dirsL, SafeDir head body obst d0 →
      ∃ d : Cell, safetyMove k head direction len body obst = some d) := by
  set pm := possibleMoves head direction len body obst with hpm
  have hsm : safetyMove k head direction len body obst =
      (if pm = [] then none
       else if direction ∈ pm then some direction
       else some (pm.getD (k % pm.length) (0, 0))) := by
    simp only [safetyMove]
  refine ⟨?_, ?_, ?_, ?_, ?_⟩
  · intro d hd
    rw [hsm] at hd
    by_cases hnil : pm = []
    · rw [if_pos hnil] at hd; exact absurd hd (by simp)
    · rw [if_neg hnil] at hd
      by_cases hmem : direction ∈ pm
      · rw [if_pos hmem] at hd
        have hde : direction = d := Option.some.inj hd
        rw [← hde]
        exact possibleMoves_mem head direction len body obst direction hmem
      · rw [if_neg hmem] at hd
        have hdm : pm.getD (k % pm.length) (0, 0) ∈ pm := getD_choice_mem pm hnil k
        have hde : pm.getD (k % pm.length) (0, 0) = d := Option.some.inj hd
        rw [← hde]
        exact possibleMoves_mem head direction len body obst _ hdm
  · intro hsafe
    have hmem : direction ∈ pm :=
      possibleMoves_mem_of_safe head direction len body obst direction hdir hsafe
        (dir_ne_own_reversal hdir)
    have hnil : pm ≠ [] := List.ne_nil_of_mem hmem
    rw [hsm, if_neg hnil, if_pos hmem]
  · intro hnone
    have hnil : pm = [] := possibleMoves_eq_nil head direction len body obst hnone
    rw [hsm, if_pos hnil]
  · intro d0 hd0 hsafe huniq
    have hnil : pm ≠ [] := possibleMoves_ne_nil head direction len body obst d0 hd0 hsafe
    have halleq : ∀ x ∈ pm, x = d0 := by
      intro x hx
      obtain ⟨hx1, hx2⟩ := possibleMoves_mem head direction len body obst x hx
      exact huniq x hx1 hx2
    rw [hsm, if_neg hnil]
    by_cases hmem : direction ∈ pm
    · rw [if_pos hmem, halleq direction hmem]
    · rw [if_neg hmem]
      rw [halleq _ (getD_choice_mem pm hnil k)]
  · intro d0 hd0 hsafe
    have hnil : pm ≠ [] := possibleMoves_ne_nil head direction len body obst d0 hd0 hsafe
    rw [hsm, if_neg hnil]
    by_cases hmem : direction ∈ pm
    · rw [if_pos hmem]
      exact ⟨direction, rfl⟩
    · rw [if_neg hmem]
      exact ⟨pm.getD (k % pm.length) (0, 0), rfl⟩

/-- C5 witness: head (0,0), direction RIGHT, obstacles block UP cell (0,19)
and RIGHT cell (1,0), body occupies DOWN cell (0,1): only LEFT is safe and
the heuristic issues it although the heading is unsafe. -/
theorem claim_C5_safety_heuristic_w :
    safetyMove 0 (0, 0) (1, 0) 3 [(0, 0), (0, 1)] [(0, 19), (1, 0)] = some (-1, 0) :=
  (claim_C5_safety_heuristic 0 (0, 0) (1, 0) 3 [(0, 0), (0, 1)] [(0, 19), (1, 0)]
    (by decide)).2.2.2.1 (-1, 0) (by decide)
    (by decide)
    (by decide)

/-- C6 -/
theorem claim_C6_goal_relocation (samples snake_body obstacles : List Cell) (prev newPos : Cell)
    (h : Food.randomize_position samples snake_body obstacles prev = some newPos) :
    newPos ≠ prev ∧ newPos ∉ obstacles ∧ newPos ∉ snake_body := by
  unfold Food.randomize_position get_random_position at h
  have hp := List.find?_some h
  simp only [Bool.and_eq_true, decide_eq_true_eq] at hp
  tauto

/-- C6 witness -/
theorem claim_C6_goal_relocation_w :
    ((5, 5) : Cell) ≠ ((0, 0) : Cell) ∧ ((5, 5) : Cell) ∉ ([] : List Cell) ∧
      ((5, 5) : Cell) ∉ ([] : List Cell) :=
  claim_C6_goal_relocation [(5, 5)] [] [] (0, 0) (5, 5) (by rfl)

/-- C7 -/
theorem claim_C7_game_over_sticky (rnd : TickRand) (g : Game) (events : List GEvent)
    (hover : g.game_over = true) (hnr : GEvent.rkey ∉ events) :
    tick rnd g events = some g := by
  have hfold : events.foldlM (handleEvent rnd) g = some g := by
    induction events with
    | nil => rfl
    | cons e es ih =>
      have hne : e ≠ GEvent.rkey := fun hc => hnr (by rw [hc]; exact List.mem_cons_self _ _)
      have he : handleEvent rnd g e = some g := by
        unfold handleEvent
        rw [if_pos hover, if_neg hne]
      rw [List.foldlM_cons, he]
      exact ih (fun hc => hnr (List.mem_cons_of_mem _ hc))
  unfold tick
  rw [hfold]
  show updateGame rnd g = some g
  unfold updateGame
  rw [if_pos hover]

/-- C7 witness -/
theorem claim_C7_game_over_sticky_w :
    tick (TickRand.mk (0, 0) [] [] 0)
      (Game.mk (Snake.mk 1 [((10 : Int), (10 : Int))] (1, 0) 0) [] (0, 0) true true [])
      [GEvent.akey, GEvent.up] =
    some (Game.mk (Snake.mk 1 [((10 : Int), (10 : Int))] (1, 0) 0) [] (0, 0) true true []) :=
  claim_C7_game_over_sticky _ _ _ (by rfl) (by decide)

/-- C8 -/
theorem claim_C8_modular_arithmetic (s : Snake) (hne : s.positions ≠ []) :
    ((s.move).1 = false →
      (s.move).2.get_head_position =
        (pymod (s.get_head_position.1 + s.direction.1) GRID_SIZE,
         pymod (s.get_head_position.2 + s.direction.2) GRID_SIZE)) ∧
    (∀ y : Int, 0 ≤ y → y < GRID_SIZE → s.positions = [(GRID_SIZE - 1, y)] →
      s.direction = RIGHT → (s.move).1 = false ∧ (s.move).2.get_head_position = (0, y)) := by
  have part1 : (s.move).1 = false →
      (s.move).2.get_head_position =
        (pymod (s.get_head_position.1 + s.direction.1) GRID_SIZE,
         pymod (s.get_head_position.2 + s.direction.2) GRID_SIZE) := by
    intro hf
    by_cases hc : s.positions.length > 2 ∧
        (pymod (s.get_head_position.1 + s.direction.1) GRID_SIZE,
          pymod (s.get_head_position.2 + s.direction.2) GRID_SIZE) ∈ s.positions.drop 2
    · rw [Snake.move_eq_collision s hc] at hf
      exact absurd hf (by simp)
    · rw [Snake.move_eq_free s hc]
      by_cases hp : ((pymod (s.get_head_position.1 + s.direction.1) GRID_SIZE,
          pymod (s.get_head_position.2 + s.direction.2) GRID_SIZE) :: s.positions).length >
          s.length
      · rw [if_pos hp, List.dropLast_cons_of_ne_nil hne]
        simp [Snake.get_head_position]
      · rw [if_neg hp]
        simp [Snake.get_head_position]
  refine ⟨part1, ?_⟩
  intro y hy0 hy1 hpos hdir
  have hnocol : ¬(s.positions.length > 2 ∧
      (pymod (s.get_head_position.1 + s.direction.1) GRID_SIZE,
        pymod (s.get_head_position.2 + s.direction.2) GRID_SIZE) ∈ s.positions.drop 2) := by
    rw [hpos]; simp
  have hfalse : (s.move).1 = false := by
    rw [Snake.move_eq_free s hnocol]
  refine ⟨hfalse, ?_⟩
  rw [part1 hfalse]
  have hhead : s.get_head_position = (GRID_SIZE - 1, y) := by
    rw [Snake.get_head_position, hpos]; rfl
  rw [hhead, hdir]
  unfold RIGHT
  simp only [Prod.mk.injEq]
  unfold GRID_SIZE at hy1
  refine ⟨by unfold pymod GRID_SIZE; omega, by unfold pymod GRID_SIZE; omega⟩

/-- C8 witness -/
theorem claim_C8_modular_arithmetic_w :
    (Snake.move (Snake.mk 1 [((19 : Int), (7 : Int))] (1, 0) 0)).1 = false ∧
    (Snake.move (Snake.mk 1 [((19 : Int), (7 : Int))] (1, 0) 0)).2.get_head_position = (0, 7) :=
  (claim_C8_modular_arithmetic _ (by decide)).2 7 (by decide) (by decide) (by decide) (by decide)

/-- C9 -/
theorem claim_C9_pathfinder_deterministic (s t : Cell) (b o : List Cell)
    (s2 t2 : Cell) (b2 o2 : List Cell)
    (hs : s = s2) (ht : t = t2) (hb : b = b2) (ho : o = o2) :
    bfs_pathfinding s t b o = bfs_pathfinding s2 t2 b2 o2 := by
  subst hs; subst ht; subst hb; subst ho; rfl

/-- C9 witness -/
theorem claim_C9_pathfinder_deterministic_w :
    bfs_pathfinding (0, 0) (0, 1) [] [] = bfs_pathfinding (0, 0) (0, 1) [] [] :=
  claim_C9_pathfinder_deterministic (0, 0) (0, 1) [] [] (0, 0) (0, 1) [] [] rfl rfl rfl rfl

/-- C10 -/
theorem claim_C10_start_target_empty :
    (∀ (p : Cell) (snake_body obstacles : List Cell),
      bfs_pathfinding p p snake_body obstacles = []) ∧
    bfs_pathfinding (0, 0) (5, 5) [] [(0, 1), (1, 0)] = [] := by
  constructor
  · intro p snake_body obstacles
    show bfsLoop p obstacles snake_body bfsFuel [[p]] {p} = []
    rw [show bfsFuel = 401 + 1 from rfl]
    simp [bfsLoop]
  · decide
